import Mathlib

/-!
Verification of the `peppy`/`looper` utility modules and of the `AttributeDict`
data type described in the project specification.

The development shallowly embeds the Python sources:

* `peppy/utils.py` and `looper/utils.py` (free functions `parse_ftype`,
  `partition`, `has_null_value`, `is_null_like`, `non_null_value`,
  `coll_like`, `expandpath`, `is_command_callable`, and the
  `CommandChecker` class) are translated directly from the source files.
* `AttributeDict` (from the project's `models` module, which is exercised by
  `tests/test_models.py` but whose defining file is not part of the sources
  at hand) is modelled from the specification's data-model section.

Python's dynamically typed values are embedded as inductive types; machine
state mutated by methods becomes explicit state passing; fallible operations
return `Except`.
-/

namespace Peppy

/-- Embedded Python exception types used by the code under verification. -/
inductive PyErr where
  | metadataOperationException
  | typeError
  | attributeError
  | keyError
  | valueError
deriving DecidableEq, Repr

/-! ## The `AttributeDict` data model

Modelled from the spec: `AttributeDict` is "a mapping from string keys to
arbitrary values, where any value that is itself a mapping is stored as a
nested `AttributeDict`"; integer keys "may be stored and retrieved via index
syntax only"; a fixed small set of metadata attribute names "can never be
overwritten via either access style".
-/

/-- A dictionary key: Python strings or integers (the two kinds exercised by
the spec and the tests). -/
inductive Key where
  | str (s : String)
  | int (n : Int)
deriving DecidableEq, Repr

/-- Primitive (non-mapping) Python values stored unconverted in an
`AttributeDict`. -/
inductive Prim where
  | pnone
  | pstr (s : String)
  | pint (n : Int)
  | pbool (b : Bool)
deriving DecidableEq, Repr

mutual
/-- An input value supplied to `AttributeDict` operations: either a primitive
or a plain mapping (which assignment converts into a nested instance). -/
inductive InVal where
  | prim (p : Prim)
  | vmap (es : KVList)
deriving DecidableEq, Repr

/-- A plain Python mapping, as an insertion-ordered key/value list. -/
inductive KVList where
  | nil
  | cons (k : Key) (v : InVal) (rest : KVList)
deriving DecidableEq, Repr
end

mutual
/-- Modelled from the spec: the `AttributeDict` abstract data type, an
insertion-ordered mapping whose stored mapping-values are nested
`AttributeDict` instances. -/
inductive AttributeDict where
  | mk (entries : ADEntries)
deriving DecidableEq, Repr

/-- A value stored inside an `AttributeDict`: a primitive kept as-is, or a
nested `AttributeDict` (the stored form of a mapping value). -/
inductive ADVal where
  | prim (p : Prim)
  | nested (d : AttributeDict)
deriving DecidableEq, Repr

/-- The insertion-ordered entry list of an `AttributeDict`. -/
inductive ADEntries where
  | nil
  | cons (k : Key) (v : ADVal) (rest : ADEntries)
deriving DecidableEq, Repr
end

/-- Modelled from the spec: the "fixed, small set of metadata attribute
names" of `AttributeDict` ("exact set implementation-defined, e.g. a flag
distinguishing 'no inherent value was supplied for this field'").  The two
names below play that role in this model. -/
def ATTRDICT_METADATA : List String := ["_attribute_identity", "_force_nulls"]

/-- Whether a key is one of the reserved metadata attribute names (only a
string key can be). -/
def keyIsMetadata : Key → Bool
  | .str s => ATTRDICT_METADATA.contains s
  | .int _ => false

/-- Python-dict style insertion: overwrite the value in place if the key is
present, otherwise append the new entry at the end. -/
def entriesInsert : ADEntries → Key → ADVal → ADEntries
  | .nil, k, v => .cons k v .nil
  | .cons k0 v0 rest, k, v =>
      if k0 = k then .cons k0 v rest else .cons k0 v0 (entriesInsert rest k v)

/-- Concatenation of entry lists (a helper for stating results about
insertion of fresh keys). -/
def entriesApp : ADEntries → ADEntries → ADEntries
  | .nil, b => b
  | .cons k v rest, b => .cons k v (entriesApp rest b)

/-- Key membership in an entry list. -/
def entriesHasKey : ADEntries → Key → Bool
  | .nil, _ => false
  | .cons k0 _ rest, k => k0 = k || entriesHasKey rest k

/-- First-occurrence lookup in an entry list. -/
def entriesLookup : ADEntries → Key → Option ADVal
  | .nil, _ => none
  | .cons k0 v0 rest, k => if k0 = k then some v0 else entriesLookup rest k

/-- Key membership in a plain mapping. -/
def kvHasKey : KVList → Key → Bool
  | .nil, _ => false
  | .cons k0 _ rest, k => k0 = k || kvHasKey rest k

/-- First-occurrence lookup in a plain mapping. -/
def kvLookup : KVList → Key → Option InVal
  | .nil, _ => none
  | .cons k0 v0 rest, k => if k0 = k then some v0 else kvLookup rest k

/-- The key/value pairs of a plain mapping, in order (Python `m.items()`). -/
def kvToPairs : KVList → List (Key × InVal)
  | .nil => []
  | .cons k v rest => (k, v) :: kvToPairs rest

/-- The keys of a plain mapping, in order (Python `m.keys()`). -/
def kvKeys : KVList → List Key
  | .nil => []
  | .cons k _ rest => k :: kvKeys rest

/-- The values of a plain mapping, in order (Python `m.values()`). -/
def kvValues : KVList → List InVal
  | .nil => []
  | .cons _ v rest => v :: kvValues rest

/-- Whether `(k, v)` occurs as an entry of the mapping. -/
def pairMem : KVList → Key → InVal → Bool
  | .nil, _, _ => false
  | .cons k0 v0 rest, k, v => (k0 = k && v0 = v) || pairMem rest k v

mutual
/-- Modelled from the spec: conversion applied to a value on assignment.  A
primitive is stored as-is; a mapping value becomes a nested `AttributeDict`
built by assigning each of its entries in order, so a reserved metadata key
anywhere inside aborts with `MetadataOperationException`. -/
def convertVal : InVal → Except PyErr ADVal
  | .prim p => .ok (.prim p)
  | .vmap es =>
      match addEntriesKV .nil es with
      | .ok aes => .ok (.nested (.mk aes))
      | .error e => .error e

/-- Item-assign each entry of a plain mapping, in order, into an accumulated
entry list (the body of nested-`AttributeDict` construction). -/
def addEntriesKV : ADEntries → KVList → Except PyErr ADEntries
  | acc, .nil => .ok acc
  | acc, .cons k v rest =>
      if keyIsMetadata k then .error .metadataOperationException
      else
        match convertVal v with
        | .ok w => addEntriesKV (entriesInsert acc k w) rest
        | .error e => .error e
end

mutual
/-- The total image of `convertVal` on well-formed inputs: the stored form of
an input value, used to state what the operations produce. -/
def pureConvert : InVal → ADVal
  | .prim p => .prim p
  | .vmap es => .nested (.mk (pureEntries es))

/-- The total image of mapping conversion, entry by entry. -/
def pureEntries : KVList → ADEntries
  | .nil => .nil
  | .cons k v rest => .cons k (pureConvert v) (pureEntries rest)
end

/-- Whether a key is a string key. -/
def kvKeyIsStr : Key → Bool
  | .str _ => true
  | .int _ => false

mutual
/-- Well-formedness of an input value: every mapping nested inside it is
well-formed in the sense of `kvWF`. -/
def valWF : InVal → Bool
  | .prim _ => true
  | .vmap es => kvWF es

/-- Well-formedness of a plain mapping as construction input: keys are
non-metadata strings, keys are distinct, and values are well-formed. -/
def kvWF : KVList → Bool
  | .nil => true
  | .cons k v rest =>
      !keyIsMetadata k && !kvHasKey rest k && kvKeyIsStr k &&
        valWF v && kvWF rest
end

/-- The entry list of an `AttributeDict`. -/
def AttributeDict.entries : AttributeDict → ADEntries
  | .mk es => es

/-- Modelled from the spec: `__setitem__`.  Writing a reserved metadata name
fails with `MetadataOperationException`; otherwise the (converted) value is
stored under the key. -/
def AttributeDict.setitem (ad : AttributeDict) (k : Key) (v : InVal) :
    Except PyErr AttributeDict :=
  if keyIsMetadata k then .error .metadataOperationException
  else
    match convertVal v with
    | .ok w => .ok (.mk (entriesInsert ad.entries k w))
    | .error e => .error e

/-- Modelled from the spec: `__setattr__`.  Attribute names are strings;
writing a reserved metadata name fails with `MetadataOperationException`;
otherwise the (converted) value is stored under the string key. -/
def AttributeDict.setattr (ad : AttributeDict) (s : String) (v : InVal) :
    Except PyErr AttributeDict :=
  if ATTRDICT_METADATA.contains s then .error .metadataOperationException
  else
    match convertVal v with
    | .ok w => .ok (.mk (entriesInsert ad.entries (.str s) w))
    | .error e => .error e

/-- Modelled from the spec: `__getitem__`.  Index syntax retrieves the stored
value for any key kind; a missing key is a `KeyError`. -/
def AttributeDict.getitem (ad : AttributeDict) (k : Key) :
    Except PyErr ADVal :=
  match entriesLookup ad.entries k with
  | some v => .ok v
  | none => .error .keyError

/-- Modelled from the spec: attribute access (`getattr`).  An attribute name
must be a string — a non-string name is a `TypeError` — and a missing string
attribute is an `AttributeError`. -/
def AttributeDict.getattr (ad : AttributeDict) (name : Key) :
    Except PyErr ADVal :=
  match name with
  | .int _ => .error .typeError
  | .str s =>
      match entriesLookup ad.entries (.str s) with
      | some v => .ok v
      | none => .error .attributeError

/-- Item-assign a list of key/value pairs, in order (the body of
`AttributeDict` construction from provided entries). -/
def addEntries (ad : AttributeDict) : List (Key × InVal) →
    Except PyErr AttributeDict
  | [] => .ok ad
  | (k, v) :: rest =>
      match ad.setitem k v with
      | .ok ad2 => addEntries ad2 rest
      | .error e => .error e

/-- Modelled from the spec: the supported construction arguments — `None`, a
mapping, an iterable of key/value pairs (a list, a zip of keys with values,
or a mapping's `items()`), or a zero-argument generator function. -/
inductive CtorArg where
  | cnone
  | mapping (m : KVList)
  | pairList (es : List (Key × InVal))
  | zipped (ks : List Key) (vs : List InVal)
  | items (es : List (Key × InVal))
  | gen (f : Unit → List (Key × InVal))

/-- Modelled from the spec: `AttributeDict` construction.  `None` gives the
empty instance; otherwise the provided entries are item-assigned in order. -/
def attributeDict : CtorArg → Except PyErr AttributeDict
  | .cnone => .ok (.mk .nil)
  | .mapping m => addEntries (.mk .nil) (kvToPairs m)
  | .pairList es => addEntries (.mk .nil) es
  | .zipped ks vs => addEntries (.mk .nil) (ks.zip vs)
  | .items es => addEntries (.mk .nil) es
  | .gen f => addEntries (.mk .nil) (f ())

mutual
/-- Modelled from the spec: equality of an `AttributeDict` with a plain
mapping "compares as a plain mapping would, structurally, recursively": the
two have the same keys, and the value stored under each key equals the
mapping's value there (a nested instance being compared, recursively, with a
plain mapping value). -/
def adEqMap : AttributeDict → KVList → Bool
  | .mk es, m =>
      entriesMatch es m && (kvKeys m).all fun k => entriesHasKey es k

/-- Every entry of the list agrees with the mapping's value at its key. -/
def entriesMatch : ADEntries → KVList → Bool
  | .nil, _ => true
  | .cons k v rest, m =>
      (match kvLookup m k with
       | some w => valEqMap v w
       | none => false) && entriesMatch rest m

/-- Structural equality of a stored value with a plain value. -/
def valEqMap : ADVal → InVal → Bool
  | .prim p, .prim q => p == q
  | .nested d, .vmap es => adEqMap d es
  | .prim _, .vmap _ => false
  | .nested _, .prim _ => false
end

/-- Whether a construction result succeeded with an instance structurally
equal (as a plain mapping) to `m`. -/
def adMatches : Except PyErr AttributeDict → KVList → Bool
  | .ok d, m => adEqMap d m
  | .error _, _ => false

/-! ## Free functions of `peppy/utils.py` and `looper/utils.py` -/

/-- A Python value as handled by the null-likeness helpers of
`peppy/utils.py`: `None`, strings, integers, lists, tuples, dicts, and
non-sized iterables such as generators. -/
inductive PVal where
  | vnone
  | vstr (s : String)
  | vint (n : Int)
  | vlist (xs : List PVal)
  | vtuple (xs : List PVal)
  | vdict (es : List (String × PVal))
  | vgen

/-- `isinstance(c, str)`. -/
def isStr : PVal → Bool
  | .vstr _ => true
  | _ => false

/-- `isinstance(c, Iterable)`: strings, lists, tuples, dicts and generators
iterate; `None` and numbers do not. -/
def isIterable : PVal → Bool
  | .vstr _ => true
  | .vlist _ => true
  | .vtuple _ => true
  | .vdict _ => true
  | .vgen => true
  | _ => false

/-- `peppy/utils.py::coll_like`: a (non-string) collection. -/
def coll_like (c : PVal) : Bool :=
  isIterable c && !isStr c

/-- `isinstance(x, Sized)`: strings, lists, tuples and dicts have a length;
generators do not. -/
def isSized : PVal → Bool
  | .vstr _ => true
  | .vlist _ => true
  | .vtuple _ => true
  | .vdict _ => true
  | _ => false

/-- Python `len` on the sized values (unused elsewhere). -/
def pyLen : PVal → Nat
  | .vstr s => s.length
  | .vlist xs => xs.length
  | .vtuple xs => xs.length
  | .vdict es => es.length
  | _ => 0

/-- Python `x in [None, ""]`: equality with `None` or with the empty
string. -/
def inNoneEmpty : PVal → Bool
  | .vnone => true
  | .vstr s => s == ""
  | _ => false

/-- `peppy/utils.py::is_null_like`. -/
def is_null_like (x : PVal) : Bool :=
  inNoneEmpty x || (coll_like x && isSized x && pyLen x == 0)

/-- First-occurrence association lookup with string keys (Python dict
access). -/
def alookup {β : Type} : List (String × β) → String → Option β
  | [], _ => none
  | (k, v) :: rest, s => if k = s then some v else alookup rest s

/-- `peppy/utils.py::has_null_value`: `k in m and is_null_like(m[k])`. -/
def has_null_value (k : String) (m : List (String × PVal)) : Bool :=
  match alookup m k with
  | some v => is_null_like v
  | none => false

/-- `peppy/utils.py::non_null_value`: `k in m and not is_null_like(m[k])`. -/
def non_null_value (k : String) (m : List (String × PVal)) : Bool :=
  match alookup m k with
  | some v => !is_null_like v
  | none => false

/-- Stated from the spec sentence for null-likeness, for comparison with the
code: a value is null-like exactly when it is `None`, the empty string, or a
sized non-string iterable of length zero. -/
def nullLikeSpec : PVal → Bool
  | .vnone => true
  | .vstr s => s == ""
  | v => isIterable v && !isStr v && isSized v && pyLen v == 0

/-- Python `str.endswith`. -/
def pyEndswith (s suffix : String) : Bool :=
  suffix.data.isSuffixOf s.data

/-- `peppy/utils.py::parse_ftype`. -/
def parse_ftype (input_file : String) : Except PyErr String :=
  if pyEndswith input_file ".bam" then .ok "bam"
  else if pyEndswith input_file ".fastq" ||
      pyEndswith input_file ".fq" ||
      pyEndswith input_file ".fq.gz" ||
      pyEndswith input_file ".fastq.gz" then .ok "fastq"
  else .error .typeError

/-- `looper/utils.py::parse_ftype` (a verbatim copy of the `peppy` one). -/
def parse_ftype_looper (input_file : String) : Except PyErr String :=
  if pyEndswith input_file ".bam" then .ok "bam"
  else if pyEndswith input_file ".fastq" ||
      pyEndswith input_file ".fq" ||
      pyEndswith input_file ".fq.gz" ||
      pyEndswith input_file ".fastq.gz" then .ok "fastq"
  else .error .typeError

/-- `looper/utils.py::partition`: one pass over the items, appending each to
the pass list or the fail list according to the test. -/
def partition {α : Type} (items : List α) (test : α → Bool) :
    List α × List α :=
  items.foldl
    (fun pf item =>
      if test item then (pf.1 ++ [item], pf.2) else (pf.1, pf.2 ++ [item]))
    ([], [])

/-- Whether a character list starts with a slash. -/
def headIsSlash : List Char → Bool
  | [] => false
  | c :: _ => c = '/'

/-- Index of the first occurrence of `"//"`, if any (the search step of
Python `str.replace`). -/
def findDSlash : List Char → Option Nat
  | [] => none
  | c :: rest =>
      if c = '/' && headIsSlash rest then some 0
      else (findDSlash rest).map (fun i => i + 1)

/-- A found occurrence lies inside the text (shows the replacement loop
consumes the text); Prop-valued helper used by `pyReplaceDSlash`. -/
def findDSlash_some_bound : ∀ (s : List Char) (i : Nat),
    findDSlash s = some i → i + 2 ≤ s.length
  | [], i, h => by simp [findDSlash] at h
  | c :: rest, i, h => by
      rw [findDSlash] at h
      by_cases hc : (c = '/' && headIsSlash rest) = true
      · rw [if_pos hc] at h
        cases h
        cases rest with
        | nil => simp [headIsSlash] at hc
        | cons c2 r2 => simp [List.length]
      · rw [if_neg hc] at h
        cases hj : findDSlash rest with
        | none => rw [hj] at h; cases h
        | some j =>
            rw [hj] at h
            cases h
            have := findDSlash_some_bound rest j hj
            simp [List.length]
            omega

/-- `str.replace("//", "/")` as Python implements it: repeatedly find the
next occurrence, splice in the replacement, and continue after it. -/
def pyReplaceDSlash (s : List Char) : List Char :=
  match h : findDSlash s with
  | none => s
  | some i => s.take i ++ '/' :: pyReplaceDSlash (s.drop (i + 2))
termination_by s.length
decreasing_by
  simp_wf
  have hb := findDSlash_some_bound s i h
  omega

/-- Stated from the claim's description, for comparison with the code: a
single left-to-right pass that rewrites each non-overlapping `"//"` to
`"/"`. -/
def replaceDSlashSpec : List Char → List Char
  | [] => []
  | [c] => [c]
  | c :: c2 :: rest =>
      if c = '/' && c2 = '/' then '/' :: replaceDSlashSpec rest
      else c :: replaceDSlashSpec (c2 :: rest)

/-- `peppy/utils.py::expandpath`: expand user and environment variables
(modelled as oracle functions, since they read the OS environment), then
replace `"//"` with `"/"`. -/
def expandpath (expanduser expandvars : String → String) (path : String) :
    String :=
  ⟨pyReplaceDSlash (expandvars (expanduser path)).data⟩

/-! ## `CommandChecker` (identical in `peppy/utils.py` and
`looper/utils.py`) -/

/-- An item of a list-valued config section: a name/command pair or a bare
command. -/
inductive CmdItem where
  | pair (nm : String) (command : String)
  | single (command : String)
deriving DecidableEq, Repr

/-- The YAML data of one config section: a mapping from tool name to
command, or a list of items. -/
inductive SectionData where
  | mapdata (es : List (String × String))
  | listdata (items : List CmdItem)
deriving DecidableEq, Repr

/-- The state built by `CommandChecker.__init__`: per-section, per-command
status, plus the failure-specific structures. -/
structure CommandChecker where
  section_to_status_by_command : List (String × List (String × Bool))
  failures_by_section : List (String × List String)
  failures : List String
deriving DecidableEq, Repr

/-- `is_command_callable`: probes the shell for the command (`command -v`);
the probe is an oracle parameter, and the name is only used for logging. -/
def is_command_callable (probe : String → Bool) (command : String)
    (_nm : String) : Bool :=
  probe command

/-- Replace-or-append update of a per-command status list. -/
def setInner : List (String × Bool) → String → Bool → List (String × Bool)
  | [], c, b => [(c, b)]
  | (c0, b0) :: rest, c, b =>
      if c0 = c then (c0, b) :: rest else (c0, b0) :: setInner rest c b

/-- `defaultdict(dict)` update: set the status of a command inside its
section's mapping, creating the section entry on first use. -/
def setStatus2 (m : List (String × List (String × Bool)))
    (sect command : String) (b : Bool) : List (String × List (String × Bool)) :=
  match m with
  | [] => [(sect, [(command, b)])]
  | (s0, inner) :: rest =>
      if s0 = sect then (s0, setInner inner command b) :: rest
      else (s0, inner) :: setStatus2 rest sect command b

/-- `defaultdict(list)` update: append a command to its section's failure
list, creating the section entry on first use. -/
def appendFBS (m : List (String × List String)) (sect command : String) :
    List (String × List String) :=
  match m with
  | [] => [(sect, [command])]
  | (s0, l) :: rest =>
      if s0 = sect then (s0, l ++ [command]) :: rest
      else (s0, l) :: appendFBS rest sect command

/-- Python `set.add`. -/
def setAdd (l : List String) (c : String) : List String :=
  if c ∈ l then l else l ++ [c]

/-- `CommandChecker._store_status`: probe the command, record the status
under its section, and record the failure-specific data when the probe
failed; returns the probe result together with the updated state. -/
def storeStatus (probe : String → Bool) (st : CommandChecker)
    (sect command nm : String) : Bool × CommandChecker :=
  let succeeded := is_command_callable probe command nm
  let st2 : CommandChecker :=
    { st with section_to_status_by_command :=
        setStatus2 st.section_to_status_by_command sect command succeeded }
  let st3 : CommandChecker :=
    if succeeded then st2
    else
      { st2 with
          failures_by_section := appendFBS st2.failures_by_section sect command,
          failures := setAdd st2.failures command }
  (succeeded, st3)

/-- One section of the `__init__` loop: skip a missing section; process a
mapping section as name/command pairs; process a list section item by item,
a non-pair item being the command itself. -/
def processSection (probe : String → Bool)
    (conf : List (String × SectionData)) (st : CommandChecker) (s : String) :
    CommandChecker :=
  match alookup conf s with
  | none => st
  | some (.mapdata es) =>
      es.foldl (fun st p => (storeStatus probe st s p.2 p.1).2) st
  | some (.listdata items) =>
      items.foldl
        (fun st it =>
          match it with
          | .pair n c => (storeStatus probe st s c n).2
          | .single c => (storeStatus probe st s c "").2)
        st

/-- The sections validated by `__init__`: the requested sections (all of the
config's when none are requested), minus the sections to skip, as a
duplicate-free set. -/
def ccSections (conf : List (String × SectionData))
    (sections_to_check : Option (List String))
    (sections_to_skip : List String) : List String :=
  ((sections_to_check.getD (conf.map Prod.fst)).filter
    (fun s => !(decide (s ∈ sections_to_skip)))).dedup

/-- `CommandChecker.__init__` over parsed YAML data: validate each selected
section in turn, starting from empty records. -/
def CommandChecker.init (probe : String → Bool)
    (conf : List (String × SectionData))
    (sections_to_check : Option (List String))
    (sections_to_skip : List String) : CommandChecker :=
  (ccSections conf sections_to_check sections_to_skip).foldl
    (fun st s => processSection probe conf st s) ⟨[], [], []⟩

/-- `CommandChecker.failed`: raise `ValueError` when no statuses were
recorded, else report whether the failure set is empty. -/
def CommandChecker.failed (ck : CommandChecker) : Except PyErr Bool :=
  if ck.section_to_status_by_command = [] then .error .valueError
  else .ok (ck.failures.length == 0)

/-- The command of a list-section item. -/
def itemCommand : CmdItem → String
  | .pair _ c => c
  | .single c => c

/-- The commands probed for one section's data. -/
def sectionCommands : SectionData → List String
  | .mapdata es => es.map Prod.snd
  | .listdata items => items.map itemCommand

/-- All `(section, command)` pairs probed by construction, in order. -/
def probedPairs (conf : List (String × SectionData)) (secs : List String) :
    List (String × String) :=
  secs.flatMap fun s =>
    match alookup conf s with
    | none => []
    | some sd => (sectionCommands sd).map (fun c => (s, c))

/-- Run the store-status step over a list of `(section, command)` pairs (the
linearization of the `__init__` loops). -/
def runPairs (probe : String → Bool) (st : CommandChecker)
    (ps : List (String × String)) : CommandChecker :=
  ps.foldl (fun st p => (storeStatus probe st p.1 p.2 "").2) st

/-- Status lookup: the recorded status of a command within a section. -/
def lookup2 (m : List (String × List (String × Bool))) (sect command : String) :
    Option Bool :=
  match alookup m sect with
  | none => none
  | some inner => alookup inner command

/-- The recorded failure list of a section (empty when absent). -/
def fbsGet (m : List (String × List String)) (sect : String) : List String :=
  (alookup m sect).getD []

/-! ## Helper lemmas about the `AttributeDict` model -/

theorem entriesApp_nil : ∀ a : ADEntries, entriesApp a .nil = a
  | .nil => rfl
  | .cons k v rest => by simp [entriesApp, entriesApp_nil rest]

theorem entriesInsert_fresh : ∀ (acc : ADEntries) (k : Key) (v : ADVal),
    entriesHasKey acc k = false →
    entriesInsert acc k v = entriesApp acc (.cons k v .nil)
  | .nil, _, _, _ => rfl
  | .cons k0 v0 rest, k, v, h => by
      simp [entriesHasKey, Bool.or_eq_true] at h
      push_neg at h
      obtain ⟨h1, h2⟩ := h
      simp [entriesInsert, entriesApp, h1, entriesInsert_fresh rest k v h2]

theorem entriesHasKey_app : ∀ (a b : ADEntries) (k : Key),
    entriesHasKey (entriesApp a b) k = (entriesHasKey a k || entriesHasKey b k)
  | .nil, b, k => by simp [entriesApp, entriesHasKey]
  | .cons k0 v0 rest, b, k => by
      by_cases h : k0 = k <;>
        simp [entriesApp, entriesHasKey, h, entriesHasKey_app rest b k]

theorem entriesApp_assoc : ∀ a b c : ADEntries,
    entriesApp (entriesApp a b) c = entriesApp a (entriesApp b c)
  | .nil, _, _ => rfl
  | .cons k v rest, b, c => by simp [entriesApp, entriesApp_assoc rest b c]

mutual
theorem convertVal_eq_pure : ∀ v : InVal, valWF v = true →
    convertVal v = .ok (pureConvert v)
  | .prim _, _ => rfl
  | .vmap es, h => by
      have h2 := addEntriesKV_pure .nil es (by simpa [valWF] using h)
          (fun k _ => rfl)
      simp [convertVal, h2, pureConvert, entriesApp]

theorem addEntriesKV_pure : ∀ (acc : ADEntries) (m : KVList), kvWF m = true →
    (∀ k, kvHasKey m k = true → entriesHasKey acc k = false) →
    addEntriesKV acc m = .ok (entriesApp acc (pureEntries m))
  | acc, .nil, _, _ => by
      show Except.ok acc = _
      rw [show pureEntries .nil = .nil from rfl, entriesApp_nil]
  | acc, .cons k v rest, h, hfresh => by
      simp [kvWF, Bool.and_eq_true] at h
      obtain ⟨⟨⟨⟨hk, hnk⟩, _⟩, hv⟩, hr⟩ := h
      have hcv := convertVal_eq_pure v hv
      have hkacc : entriesHasKey acc k = false :=
        hfresh k (by simp [kvHasKey])
      have hins := entriesInsert_fresh acc k (pureConvert v) hkacc
      have hrest := addEntriesKV_pure (entriesInsert acc k (pureConvert v)) rest hr ?_
      · rw [show addEntriesKV acc (KVList.cons k v rest) =
          addEntriesKV (entriesInsert acc k (pureConvert v)) rest from ?_]
        · rw [hrest, hins, entriesApp_assoc]
          simp [entriesApp, pureEntries]
        · simp [addEntriesKV, hk, hcv]
      · intro k2 hk2
        rw [hins, entriesHasKey_app]
        have hne : ¬ (k = k2) := by
          intro hc
          rw [hc, hk2] at hnk
          exact Bool.noConfusion hnk
        simp [entriesHasKey, hne, hfresh k2 (by simp [kvHasKey, hk2])]
end

/-! ## C1: reserved metadata names reject writes -/

/-- C1: for every `AttributeDict` and every reserved metadata attribute
name, overwriting the name via attribute assignment (`__setattr__`) or via
item assignment (`__setitem__`) fails with `MetadataOperationException`; in
this state-passing embedding an `error` result returns no updated instance,
so the stored mapping is unchanged by the failed attempt. -/
theorem claim_C1_metadata_write_rejected (ad : AttributeDict) (nm : String)
    (v : InVal) (h : nm ∈ ATTRDICT_METADATA) :
    ad.setattr nm v = .error .metadataOperationException ∧
    ad.setitem (.str nm) v = .error .metadataOperationException := by
  have hc : ATTRDICT_METADATA.contains nm = true :=
    List.elem_eq_true_of_mem h
  constructor
  · rw [AttributeDict.setattr, if_pos hc]
  · rw [AttributeDict.setitem, show keyIsMetadata (.str nm) = true from hc, if_pos rfl]

/-- C1 witness: the write rejection at a concrete instance and metadata
name. -/
theorem claim_C1_witness :
    "_attribute_identity" ∈ ATTRDICT_METADATA ∧
    (AttributeDict.mk .nil).setattr "_attribute_identity" (.prim (.pint 3)) =
      .error .metadataOperationException ∧
    (AttributeDict.mk .nil).setitem (.str "_attribute_identity")
      (.prim (.pint 3)) = .error .metadataOperationException :=
  ⟨by decide,
   (claim_C1_metadata_write_rejected (.mk .nil) "_attribute_identity"
     (.prim (.pint 3)) (by decide)).1,
   (claim_C1_metadata_write_rejected (.mk .nil) "_attribute_identity"
     (.prim (.pint 3)) (by decide)).2⟩

/-! ## C4: integer keys are index-only -/

/-- C4: an entry stored under an integer key is retrievable via index
syntax, while attribute access with a non-string name fails with
`TypeError`: only string keys are accessible via attribute syntax. -/
theorem claim_C4_numeric_key_index_only (ad : AttributeDict) (n : Int)
    (v : ADVal) (h : entriesLookup ad.entries (.int n) = some v) :
    ad.getitem (.int n) = .ok v ∧ ad.getattr (.int n) = .error .typeError := by
  constructor
  · rw [AttributeDict.getitem, h]
  · rfl

/-- C4 witness: the dictionary `{1: 'a'}` of the test suite. -/
theorem claim_C4_witness :
    (AttributeDict.mk (.cons (.int 1) (.prim (.pstr "a")) .nil)).getitem
      (.int 1) = .ok (.prim (.pstr "a")) ∧
    (AttributeDict.mk (.cons (.int 1) (.prim (.pstr "a")) .nil)).getattr
      (.int 1) = .error .typeError :=
  claim_C4_numeric_key_index_only
    (.mk (.cons (.int 1) (.prim (.pstr "a")) .nil)) 1 (.prim (.pstr "a")) rfl

/-! ## C7: `partition` -/

theorem partition_foldl {α : Type} (test : α → Bool) : ∀ (l : List α)
    (ps fs : List α),
    l.foldl
      (fun pf item =>
        if test item then (pf.1 ++ [item], pf.2) else (pf.1, pf.2 ++ [item]))
      (ps, fs) =
      (ps ++ l.filter test, fs ++ l.filter (fun x => !test x))
  | [], ps, fs => by simp
  | x :: rest, ps, fs => by
      by_cases h : test x = true
      · simp [h, partition_foldl test rest (ps ++ [x]) fs, List.filter_cons]
      · rw [Bool.not_eq_true] at h
        simp [h, partition_foldl test rest ps (fs ++ [x]), List.filter_cons]

/-- C7: `partition` returns the subsequence of items passing the test and
the subsequence failing it, each in original order, and together the two
lists are a permutation of the input (every element exactly once). -/
theorem claim_C7_partition {α : Type} (items : List α) (test : α → Bool) :
    (partition items test).1 = items.filter test ∧
    (partition items test).2 = items.filter (fun x => !test x) ∧
    List.Perm ((partition items test).1 ++ (partition items test).2) items := by
  have hp := partition_foldl test items [] []
  rw [partition]
  refine ⟨by simp [hp], by simp [hp], ?_⟩
  rw [hp]
  simpa using List.filter_append_perm test items

/-! ## C8: null-likeness helpers -/

theorem is_null_like_eq_spec (v : PVal) : is_null_like v = nullLikeSpec v := by
  cases v <;>
    simp [is_null_like, nullLikeSpec, inNoneEmpty, coll_like, isIterable,
      isStr, isSized, pyLen]

/-- C8: `has_null_value k m` holds exactly when `k` is a key of `m` whose
value is null-like, and `non_null_value k m` exactly when `k` is a key of
`m` whose value is not null-like — null-like meaning `None`, the empty
string, or a sized non-string iterable of length zero (`nullLikeSpec`). -/
theorem claim_C8_null_value_helpers (k : String) (m : List (String × PVal)) :
    (has_null_value k m = true ↔
      ∃ v, alookup m k = some v ∧ nullLikeSpec v = true) ∧
    (non_null_value k m = true ↔
      ∃ v, alookup m k = some v ∧ nullLikeSpec v = false) := by
  cases h : alookup m k with
  | none => simp [has_null_value, non_null_value, h]
  | some v => simp [has_null_value, non_null_value, h, is_null_like_eq_spec]

/-! ## C6: `parse_ftype` -/

theorem pyEndswith_last (s suf : String) (c : Char)
    (h : pyEndswith s suf = true) (hc : suf.data.getLast? = some c) :
    s.data.getLast? = some c := by
  rw [pyEndswith, List.isSuffixOf_iff_suffix] at h
  obtain ⟨t, ht⟩ := h
  rw [← ht, List.getLast?_append_of_ne_nil t]
  · exact hc
  · intro hnil
    rw [hnil] at hc
    cases hc

/-- C6: `parse_ftype` answers `"bam"` for strings ending in `".bam"`,
`"fastq"` for strings ending in `".fastq"`, `".fq"`, `".fq.gz"` or
`".fastq.gz"`, and `TypeError` for every other string; the copies in
`peppy/utils.py` and `looper/utils.py` agree on every input. -/
theorem claim_C6_parse_ftype (s : String) :
    parse_ftype_looper s = parse_ftype s ∧
    (pyEndswith s ".bam" = true → parse_ftype s = .ok "bam") ∧
    ((pyEndswith s ".fastq" || pyEndswith s ".fq" ||
      pyEndswith s ".fq.gz" || pyEndswith s ".fastq.gz") = true →
      parse_ftype s = .ok "fastq") ∧
    (pyEndswith s ".bam" = false →
      (pyEndswith s ".fastq" || pyEndswith s ".fq" ||
       pyEndswith s ".fq.gz" || pyEndswith s ".fastq.gz") = false →
      parse_ftype s = .error .typeError) := by
  refine ⟨rfl, ?_, ?_, ?_⟩
  · intro hb
    simp [parse_ftype, hb]
  · intro hf
    have hb : pyEndswith s ".bam" = false := by
      by_contra hbc
      rw [Bool.not_eq_false] at hbc
      have hm : s.data.getLast? = some 'm' :=
        pyEndswith_last s ".bam" 'm' hbc (by decide)
      have hqz : s.data.getLast? = some 'q' ∨ s.data.getLast? = some 'z' := by
        simp only [Bool.or_eq_true] at hf
        rcases hf with ((h1 | h2) | h3) | h4
        · exact .inl (pyEndswith_last s ".fastq" 'q' h1 (by decide))
        · exact .inl (pyEndswith_last s ".fq" 'q' h2 (by decide))
        · exact .inr (pyEndswith_last s ".fq.gz" 'z' h3 (by decide))
        · exact .inr (pyEndswith_last s ".fastq.gz" 'z' h4 (by decide))
      rcases hqz with hq | hz
      · rw [hm] at hq
        exact absurd (Option.some.inj hq) (by decide)
      · rw [hm] at hz
        exact absurd (Option.some.inj hz) (by decide)
    simp [parse_ftype, hb, hf]
  · intro hb hf
    simp [parse_ftype, hb, hf]

/-- C6 witness: the three behaviours at concrete file names. -/
theorem claim_C6_witness :
    parse_ftype "a.bam" = .ok "bam" ∧
    parse_ftype "a.fq.gz" = .ok "fastq" ∧
    parse_ftype "a.txt" = .error .typeError :=
  ⟨(claim_C6_parse_ftype "a.bam").2.1 (by decide),
   (claim_C6_parse_ftype "a.fq.gz").2.2.1 (by decide),
   (claim_C6_parse_ftype "a.txt").2.2.2 (by decide) (by decide)⟩

/-! ## C10: `expandpath` -/

theorem pyReplace_none (s : List Char) (h : findDSlash s = none) :
    pyReplaceDSlash s = s := by
  rw [pyReplaceDSlash.eq_def]
  split
  · rfl
  · rename_i i hi
    rw [h] at hi
    cases hi

theorem pyReplace_some (s : List Char) (i : Nat) (h : findDSlash s = some i) :
    pyReplaceDSlash s = s.take i ++ '/' :: pyReplaceDSlash (s.drop (i + 2)) := by
  rw [pyReplaceDSlash.eq_def]
  split
  · rename_i hn
    rw [h] at hn
    cases hn
  · rename_i j hj
    rw [h] at hj
    obtain rfl : i = j := Option.some.inj hj
    rfl

theorem findDSlash_cons_ne (c : Char) (rest : List Char)
    (hc : (decide (c = '/') && headIsSlash rest) = false) :
    findDSlash (c :: rest) = (findDSlash rest).map (fun i => i + 1) := by
  rw [findDSlash, if_neg]
  simp [hc]

theorem pyReplace_cons (c : Char) (rest : List Char)
    (hc : (decide (c = '/') && headIsSlash rest) = false) :
    pyReplaceDSlash (c :: rest) = c :: pyReplaceDSlash rest := by
  cases hj : findDSlash rest with
  | none =>
      have h1 : findDSlash (c :: rest) = none := by
        rw [findDSlash_cons_ne c rest hc, hj]
        rfl
      rw [pyReplace_none _ h1, pyReplace_none _ hj]
  | some j =>
      have h1 : findDSlash (c :: rest) = some (j + 1) := by
        rw [findDSlash_cons_ne c rest hc, hj]
        rfl
      rw [pyReplace_some _ _ h1, pyReplace_some _ _ hj]
      simp [List.take_succ_cons]

theorem pyReplace_dslash (rest : List Char) :
    pyReplaceDSlash ('/' :: '/' :: rest) = '/' :: pyReplaceDSlash rest := by
  have h1 : findDSlash ('/' :: '/' :: rest) = some 0 := by
    rw [findDSlash]
    simp [headIsSlash]
  rw [pyReplace_some _ _ h1]
  rfl

theorem replaceSpec_cons_ne (c : Char) (rest : List Char)
    (hc : (decide (c = '/') && headIsSlash rest) = false) :
    replaceDSlashSpec (c :: rest) = c :: replaceDSlashSpec rest := by
  cases rest with
  | nil => rfl
  | cons c2 r2 =>
      simp only [headIsSlash] at hc
      simp [replaceDSlashSpec, hc]

theorem replaceSpec_dslash (rest : List Char) :
    replaceDSlashSpec ('/' :: '/' :: rest) = '/' :: replaceDSlashSpec rest := by
  simp [replaceDSlashSpec]

theorem pyReplace_eq_spec : ∀ s : List Char,
    pyReplaceDSlash s = replaceDSlashSpec s
  | [] => by
      rw [pyReplace_none [] rfl]
      rfl
  | c :: rest => by
      by_cases hc : (decide (c = '/') && headIsSlash rest) = true
      · simp only [Bool.and_eq_true, decide_eq_true_eq] at hc
        obtain ⟨hc1, hc2⟩ := hc
        cases rest with
        | nil => simp [headIsSlash] at hc2
        | cons c2 rest2 =>
            have hc2m : c2 = '/' := by simpa [headIsSlash] using hc2
            subst hc1
            subst hc2m
            rw [pyReplace_dslash rest2, replaceSpec_dslash rest2,
              pyReplace_eq_spec rest2]
      · rw [Bool.not_eq_true] at hc
        rw [pyReplace_cons c rest hc, replaceSpec_cons_ne c rest hc,
          pyReplace_eq_spec rest]

/-- C10: `expandpath` applies the left-to-right single-pass non-overlapping
replacement of `"//"` by `"/"` (`replaceDSlashSpec`) to the user- and
environment-variable-expanded input; in particular an expanded input that
starts with a URL scheme separator `"http://"` has the doubled slash
collapsed to a single slash in the result. -/
theorem claim_C10_expandpath (eu ev : String → String) (p : String) :
    (expandpath eu ev p).data = replaceDSlashSpec (ev (eu p)).data ∧
    (∀ rest : List Char, (ev (eu p)).data = ("http://").data ++ rest →
      (expandpath eu ev p).data = ("http:/").data ++ replaceDSlashSpec rest) := by
  constructor
  · show pyReplaceDSlash (ev (eu p)).data = _
    rw [pyReplace_eq_spec]
  · intro rest hr
    show pyReplaceDSlash (ev (eu p)).data = _
    rw [pyReplace_eq_spec, hr]
    show replaceDSlashSpec
      ('h' :: 't' :: 't' :: 'p' :: ':' :: '/' :: '/' :: rest) =
      'h' :: 't' :: 't' :: 'p' :: ':' :: '/' :: replaceDSlashSpec rest
    rw [replaceSpec_cons_ne _ _ (by simp), replaceSpec_cons_ne _ _ (by simp),
      replaceSpec_cons_ne _ _ (by simp), replaceSpec_cons_ne _ _ (by simp),
      replaceSpec_cons_ne _ _ (by simp), replaceSpec_dslash]

/-- C10 witness: the identity expansions applied to the URL
`"http://x"`. -/
theorem claim_C10_witness :
    (expandpath (fun s => s) (fun s => s) "http://x").data =
      ("http:/").data ++ replaceDSlashSpec ['x'] :=
  (claim_C10_expandpath (fun s => s) (fun s => s) "http://x").2 ['x'] rfl

/-! ## C2 and C3: construction, nesting, and mapping equality -/

theorem addEntries_eq_addKV : ∀ (m : KVList) (acc : ADEntries),
    addEntries (.mk acc) (kvToPairs m) =
      (addEntriesKV acc m).map AttributeDict.mk
  | .nil, acc => rfl
  | .cons k v rest, acc => by
      rw [kvToPairs, addEntries, AttributeDict.setitem]
      by_cases hk : keyIsMetadata k = true
      · rw [if_pos hk]
        simp [addEntriesKV, hk, Except.map]
      · rw [Bool.not_eq_true] at hk
        rw [if_neg (by simp [hk])]
        cases hcv : convertVal v with
        | ok w =>
            simp only [AttributeDict.entries]
            simp [addEntriesKV, hk, hcv,
              addEntries_eq_addKV rest (entriesInsert acc k w)]
        | error e => simp [addEntriesKV, hk, hcv, Except.map]

theorem kvZip_eq_pairs : ∀ m : KVList,
    (kvKeys m).zip (kvValues m) = kvToPairs m
  | .nil => rfl
  | .cons k v rest => by
      simp [kvKeys, kvValues, kvToPairs, kvZip_eq_pairs rest]

theorem entriesLookup_pure : ∀ (m : KVList) (k : Key),
    entriesLookup (pureEntries m) k = (kvLookup m k).map pureConvert
  | .nil, _ => rfl
  | .cons k0 v0 rest, k => by
      by_cases h : k0 = k <;>
        simp [pureEntries, entriesLookup, kvLookup, h,
          entriesLookup_pure rest k]

theorem entriesHasKey_pure : ∀ (m : KVList) (k : Key),
    entriesHasKey (pureEntries m) k = kvHasKey m k
  | .nil, _ => rfl
  | .cons k0 v0 rest, k => by
      simp [pureEntries, entriesHasKey, kvHasKey, entriesHasKey_pure rest k]

theorem pairMem_hasKey : ∀ (m : KVList) (k : Key) (v : InVal),
    pairMem m k v = true → kvHasKey m k = true
  | .nil, k, v, h => by simp [pairMem] at h
  | .cons k0 v0 rest, k, v, h => by
      simp only [pairMem, Bool.or_eq_true, Bool.and_eq_true,
        decide_eq_true_eq] at h
      rcases h with ⟨h1, _⟩ | h2
      · simp [kvHasKey, h1]
      · simp [kvHasKey, pairMem_hasKey rest k v h2]

theorem kvWF_lookup_of_pairMem : ∀ (m : KVList) (k : Key) (v : InVal),
    kvWF m = true → pairMem m k v = true → kvLookup m k = some v
  | .nil, k, v, _, hpm => by simp [pairMem] at hpm
  | .cons k0 v0 rest, k, v, hwf, hpm => by
      simp [kvWF, Bool.and_eq_true] at hwf
      obtain ⟨⟨⟨⟨_, hnk⟩, _⟩, _⟩, hr⟩ := hwf
      simp only [pairMem, Bool.or_eq_true, Bool.and_eq_true,
        decide_eq_true_eq] at hpm
      rcases hpm with ⟨h1, h2⟩ | h2
      · subst h1
        subst h2
        simp [kvLookup]
      · have hkk : kvHasKey rest k = true := pairMem_hasKey rest k v h2
        have hne : ¬ (k0 = k) := by
          intro hc
          rw [hc, hkk] at hnk
          exact Bool.noConfusion hnk
        rw [kvLookup, if_neg hne]
        exact kvWF_lookup_of_pairMem rest k v hr h2

theorem mem_kvKeys_hasKey : ∀ (m : KVList) (k : Key),
    k ∈ kvKeys m → kvHasKey m k = true
  | .nil, k, h => by simp [kvKeys] at h
  | .cons k0 v0 rest, k, h => by
      rw [kvKeys] at h
      rcases List.mem_cons.mp h with h1 | h2
      · simp [kvHasKey, h1]
      · simp [kvHasKey, mem_kvKeys_hasKey rest k h2]

mutual
theorem valEqMap_pure : ∀ v : InVal, valWF v = true →
    valEqMap (pureConvert v) v = true
  | .prim p, _ => by simp [pureConvert, valEqMap]
  | .vmap es, h => by
      have hWF : kvWF es = true := by simpa [valWF] using h
      show (entriesMatch (pureEntries es) es &&
        (kvKeys es).all fun k => entriesHasKey (pureEntries es) k) = true
      rw [Bool.and_eq_true]
      constructor
      · exact entriesMatch_pure es es hWF
          (fun k v hpm => kvWF_lookup_of_pairMem es k v hWF hpm)
      · rw [List.all_eq_true]
        intro k hk
        rw [entriesHasKey_pure]
        exact mem_kvKeys_hasKey es k hk

theorem entriesMatch_pure : ∀ (sub m : KVList), kvWF sub = true →
    (∀ k v, pairMem sub k v = true → kvLookup m k = some v) →
    entriesMatch (pureEntries sub) m = true
  | .nil, _, _, _ => rfl
  | .cons k v rest, m, hWF, hlook => by
      simp [kvWF, Bool.and_eq_true] at hWF
      obtain ⟨⟨⟨⟨_, _⟩, _⟩, hv⟩, hr⟩ := hWF
      have hl : kvLookup m k = some v := hlook k v (by simp [pairMem])
      show ((match kvLookup m k with
             | some w => valEqMap (pureConvert v) w
             | none => false) && entriesMatch (pureEntries rest) m) = true
      rw [hl, Bool.and_eq_true]
      constructor
      · exact valEqMap_pure v hv
      · exact entriesMatch_pure rest m hr
          (fun k2 v2 h2 => hlook k2 v2 (by simp [pairMem, h2]))
end

theorem adEqMap_pure (m : KVList) (h : kvWF m = true) :
    adEqMap (.mk (pureEntries m)) m = true :=
  valEqMap_pure (.vmap m) (by simpa [valWF] using h)

theorem attributeDict_build (m : KVList) (h : kvWF m = true) :
    addEntries (.mk .nil) (kvToPairs m) = .ok (.mk (pureEntries m)) := by
  rw [addEntries_eq_addKV m .nil,
    addEntriesKV_pure .nil m h (fun k _ => rfl)]
  rfl

/-- C2: `AttributeDict` built from a well-formed mapping `m`, from the list
of `m`'s pairs, from the zip of `m`'s keys with `m`'s values, from `m`'s
items, or from a zero-argument generator yielding `m`'s pairs, is
structurally equal — as a plain mapping, recursively — to `m`; and the
instances built from `None` or from an empty collection equal the empty
mapping. -/
theorem claim_C2_construction_modes (m : KVList) (h : kvWF m = true) :
    adMatches (attributeDict (.mapping m)) m = true ∧
    adMatches (attributeDict (.pairList (kvToPairs m))) m = true ∧
    adMatches (attributeDict (.zipped (kvKeys m) (kvValues m))) m = true ∧
    adMatches (attributeDict (.items (kvToPairs m))) m = true ∧
    adMatches (attributeDict (.gen (fun _ => kvToPairs m))) m = true ∧
    attributeDict .cnone = .ok (.mk .nil) ∧
    adMatches (attributeDict .cnone) .nil = true ∧
    adMatches (attributeDict (.pairList [])) .nil = true := by
  have hb : addEntries (.mk .nil) (kvToPairs m) = .ok (.mk (pureEntries m)) :=
    attributeDict_build m h
  have he : adEqMap (.mk (pureEntries m)) m = true := adEqMap_pure m h
  have hz : (kvKeys m).zip (kvValues m) = kvToPairs m := kvZip_eq_pairs m
  refine ⟨?_, ?_, ?_, ?_, ?_, rfl, rfl, rfl⟩
  · show adMatches (addEntries (.mk .nil) (kvToPairs m)) m = true
    rw [hb]
    exact he
  · show adMatches (addEntries (.mk .nil) (kvToPairs m)) m = true
    rw [hb]
    exact he
  · show adMatches (addEntries (.mk .nil) ((kvKeys m).zip (kvValues m))) m
      = true
    rw [hz, hb]
    exact he
  · show adMatches (addEntries (.mk .nil) (kvToPairs m)) m = true
    rw [hb]
    exact he
  · show adMatches (addEntries (.mk .nil) (kvToPairs m)) m = true
    rw [hb]
    exact he

/-- C2 witness: a concrete two-entry mapping with a nested mapping value,
built in each supported mode. -/
theorem claim_C2_witness :
    kvWF (.cons (.str "a") (.prim (.pint 1))
      (.cons (.str "b") (.vmap (.cons (.str "c") (.prim (.pstr "x")) .nil))
        .nil)) = true ∧
    adMatches
      (attributeDict (.mapping (.cons (.str "a") (.prim (.pint 1))
        (.cons (.str "b")
          (.vmap (.cons (.str "c") (.prim (.pstr "x")) .nil)) .nil))))
      (.cons (.str "a") (.prim (.pint 1))
        (.cons (.str "b")
          (.vmap (.cons (.str "c") (.prim (.pstr "x")) .nil)) .nil)) = true ∧
    adMatches (attributeDict .cnone) .nil = true :=
  ⟨by decide,
   (claim_C2_construction_modes
     (.cons (.str "a") (.prim (.pint 1))
       (.cons (.str "b")
         (.vmap (.cons (.str "c") (.prim (.pstr "x")) .nil)) .nil))
     (by decide)).1,
   (claim_C2_construction_modes
     (.cons (.str "a") (.prim (.pint 1))
       (.cons (.str "b")
         (.vmap (.cons (.str "c") (.prim (.pstr "x")) .nil)) .nil))
     (by decide)).2.2.2.2.2.2.1⟩

theorem entriesLookup_insert_self : ∀ (es : ADEntries) (k : Key) (v : ADVal),
    entriesLookup (entriesInsert es k v) k = some v
  | .nil, k, v => by simp [entriesInsert, entriesLookup]
  | .cons k0 v0 rest, k, v => by
      by_cases h : k0 = k <;>
        simp [entriesInsert, entriesLookup, h,
          entriesLookup_insert_self rest k v]

/-- C3: assigning a mapping value — via item assignment, attribute
assignment, or at construction — stores it as a nested `AttributeDict`
(`ADVal.nested`), and that nested instance supports both key-style and
attribute-style access to each of its own entries. -/
theorem claim_C3_nested_mapping_dual_access
    (ad ad1 ad2 adc : AttributeDict) (s : String) (es : KVList)
    (hWF : kvWF es = true)
    (h1 : ad.setitem (.str s) (.vmap es) = .ok ad1)
    (h2 : ad.setattr s (.vmap es) = .ok ad2)
    (h3 : attributeDict (.pairList [((.str s), .vmap es)]) = .ok adc) :
    (ad1.getitem (.str s) = .ok (.nested (.mk (pureEntries es))) ∧
     ad1.getattr (.str s) = .ok (.nested (.mk (pureEntries es)))) ∧
    (ad2.getitem (.str s) = .ok (.nested (.mk (pureEntries es))) ∧
     ad2.getattr (.str s) = .ok (.nested (.mk (pureEntries es)))) ∧
    (adc.getitem (.str s) = .ok (.nested (.mk (pureEntries es))) ∧
     adc.getattr (.str s) = .ok (.nested (.mk (pureEntries es)))) ∧
    (∀ (t : String) (v : InVal), pairMem es (.str t) v = true →
      (AttributeDict.mk (pureEntries es)).getitem (.str t) =
        .ok (pureConvert v) ∧
      (AttributeDict.mk (pureEntries es)).getattr (.str t) =
        .ok (pureConvert v)) := by
  have hcv : convertVal (.vmap es) = .ok (.nested (.mk (pureEntries es))) :=
    convertVal_eq_pure (.vmap es) (by simpa [valWF] using hWF)
  rw [AttributeDict.setitem] at h1
  rw [AttributeDict.setattr] at h2
  have h3e : (AttributeDict.mk .nil).setitem (.str s) (.vmap es) = .ok adc := by
    rw [show attributeDict (.pairList [((.str s), .vmap es)]) =
      addEntries (.mk .nil) [((.str s), .vmap es)] from rfl] at h3
    rw [addEntries] at h3
    cases hset : (AttributeDict.mk .nil).setitem (.str s) (.vmap es) with
    | ok adx =>
        rw [hset] at h3
        have h3r : Except.ok (ε := PyErr) adx = Except.ok adc := h3
        exact h3r
    | error e =>
        rw [hset] at h3
        exact Except.noConfusion h3
  rw [AttributeDict.setitem] at h3e
  by_cases hk : keyIsMetadata (.str s) = true
  · rw [if_pos hk] at h1
    cases h1
  · rw [Bool.not_eq_true] at hk
    rw [if_neg (by simp [hk]), hcv] at h1
    rw [if_neg (by simp [hk]), hcv] at h3e
    have hks : ATTRDICT_METADATA.contains s = false := hk
    rw [if_neg (fun hcon => by rw [hcon] at hks; exact Bool.noConfusion hks),
      hcv] at h2
    injection h1 with h1e
    injection h2 with h2e
    injection h3e with h3x
    subst h1e
    subst h2e
    subst h3x
    have hlook : ∀ base : ADEntries,
        entriesLookup (entriesInsert base (.str s)
          (.nested (.mk (pureEntries es)))) (.str s) =
        some (.nested (.mk (pureEntries es))) :=
      fun base => entriesLookup_insert_self base (.str s) _
    refine ⟨⟨?_, ?_⟩, ⟨?_, ?_⟩, ⟨?_, ?_⟩, ?_⟩
    · simp [AttributeDict.getitem, AttributeDict.entries, hlook]
    · simp [AttributeDict.getattr, AttributeDict.entries, hlook]
    · simp [AttributeDict.getitem, AttributeDict.entries, hlook]
    · simp [AttributeDict.getattr, AttributeDict.entries, hlook]
    · simp [AttributeDict.getitem, AttributeDict.entries, hlook]
    · simp [AttributeDict.getattr, AttributeDict.entries, hlook]
    · intro t v hpm
      have hl : kvLookup es (.str t) = some v :=
        kvWF_lookup_of_pairMem es (.str t) v hWF hpm
      have hlp : entriesLookup (pureEntries es) (.str t) =
          some (pureConvert v) := by
        rw [entriesLookup_pure, hl]
        rfl
      constructor
      · simp [AttributeDict.getitem, AttributeDict.entries, hlp]
      · simp [AttributeDict.getattr, AttributeDict.entries, hlp]

/-- C3 witness: storing the mapping `{"inner": 5}` under a fresh attribute
of an empty instance in each of the three ways. -/
theorem claim_C3_witness :
    ((AttributeDict.mk (.cons (.str "attrd")
        (.nested (.mk (.cons (.str "inner") (.prim (.pint 5)) .nil)))
        .nil)).getitem (.str "attrd") =
      .ok (.nested (.mk (.cons (.str "inner") (.prim (.pint 5)) .nil))) ∧
     (AttributeDict.mk (.cons (.str "attrd")
        (.nested (.mk (.cons (.str "inner") (.prim (.pint 5)) .nil)))
        .nil)).getattr (.str "attrd") =
      .ok (.nested (.mk (.cons (.str "inner") (.prim (.pint 5)) .nil)))) ∧
    ((AttributeDict.mk (.cons (.str "inner") (.prim (.pint 5)) .nil)).getitem
        (.str "inner") = .ok (.prim (.pint 5)) ∧
     (AttributeDict.mk (.cons (.str "inner") (.prim (.pint 5)) .nil)).getattr
        (.str "inner") = .ok (.prim (.pint 5))) := by
  have hall := claim_C3_nested_mapping_dual_access
    (.mk .nil) _ _ _ "attrd" (.cons (.str "inner") (.prim (.pint 5)) .nil)
    (by decide) rfl rfl rfl
  exact ⟨hall.1, hall.2.2.2 "inner" (.prim (.pint 5)) (by decide)⟩

/-! ## C5 and C9: `CommandChecker` -/

theorem setInner_alookup : ∀ (inner : List (String × Bool)) (c : String)
    (b : Bool) (c2 : String),
    alookup (setInner inner c b) c2 =
      if c = c2 then some b else alookup inner c2
  | [], c, b, c2 => by
      by_cases h : c = c2 <;> simp [setInner, alookup, h]
  | (c0, b0) :: rest, c, b, c2 => by
      by_cases h0 : c0 = c
      · subst h0
        by_cases h2 : c0 = c2 <;> simp [setInner, alookup, h2]
      · by_cases h2 : c0 = c2
        · subst h2
          simp [setInner, alookup, h0, Ne.symm h0]
        · simp [setInner, alookup, h0, h2, setInner_alookup rest c b c2]

theorem lookup2_cons (s0 : String) (inner : List (String × Bool))
    (rest : List (String × List (String × Bool))) (s2 c2 : String) :
    lookup2 ((s0, inner) :: rest) s2 c2 =
      if s0 = s2 then alookup inner c2 else lookup2 rest s2 c2 := by
  by_cases h : s0 = s2 <;> simp [lookup2, alookup, h]

theorem setStatus2_lookup2 : ∀ (m : List (String × List (String × Bool)))
    (sect c : String) (b : Bool) (s2 c2 : String),
    lookup2 (setStatus2 m sect c b) s2 c2 =
      if sect = s2 ∧ c = c2 then some b else lookup2 m s2 c2
  | [], sect, c, b, s2, c2 => by
      by_cases h1 : sect = s2
      · subst h1
        by_cases h2 : c = c2 <;>
          simp [setStatus2, lookup2, alookup, h2]
      · simp [setStatus2, lookup2, alookup, h1]
  | (s0, inner) :: rest, sect, c, b, s2, c2 => by
      by_cases h0 : s0 = sect
      · subst h0
        rw [setStatus2, if_pos rfl, lookup2_cons, lookup2_cons,
          setInner_alookup]
        by_cases h2 : s0 = s2
        · subst h2
          by_cases h3 : c = c2 <;> simp [h3]
        · simp [h2]
      · rw [setStatus2, if_neg h0, lookup2_cons, lookup2_cons,
          setStatus2_lookup2 rest sect c b s2 c2]
        by_cases h2 : s0 = s2
        · subst h2
          rw [if_pos rfl, if_pos rfl,
            if_neg (fun hcon => h0 (And.left hcon).symm)]
        · rw [if_neg h2, if_neg h2]

theorem fbsGet_cons (s0 : String) (l : List String)
    (rest : List (String × List String)) (s2 : String) :
    fbsGet ((s0, l) :: rest) s2 = if s0 = s2 then l else fbsGet rest s2 := by
  by_cases h : s0 = s2 <;> simp [fbsGet, alookup, h]

theorem fbsGet_append : ∀ (m : List (String × List String))
    (sect c : String) (s2 : String),
    fbsGet (appendFBS m sect c) s2 =
      if sect = s2 then fbsGet m s2 ++ [c] else fbsGet m s2
  | [], sect, c, s2 => by
      by_cases h : sect = s2 <;> simp [appendFBS, fbsGet, alookup, h]
  | (s0, l) :: rest, sect, c, s2 => by
      by_cases h0 : s0 = sect
      · subst h0
        rw [appendFBS, if_pos rfl, fbsGet_cons, fbsGet_cons]
        by_cases h2 : s0 = s2 <;> simp [h2]
      · rw [appendFBS, if_neg h0, fbsGet_cons, fbsGet_cons,
          fbsGet_append rest sect c s2]
        by_cases h2 : s0 = s2
        · subst h2
          simp [Ne.symm h0]
        · simp [h2]

theorem mem_setAdd (l : List String) (c0 c : String) :
    c ∈ setAdd l c0 ↔ c ∈ l ∨ c = c0 := by
  rw [setAdd]
  by_cases h : c0 ∈ l
  · rw [if_pos h]
    constructor
    · exact Or.inl
    · rintro (h1 | rfl)
      · exact h1
      · exact h
  · rw [if_neg h]
    simp

theorem storeStatus_stsbc (probe : String → Bool) (st : CommandChecker)
    (sect c nm : String) :
    ((storeStatus probe st sect c nm).2).section_to_status_by_command =
      setStatus2 st.section_to_status_by_command sect c (probe c) := by
  rw [storeStatus]
  by_cases h : probe c = true <;>
    simp [is_command_callable, h]

theorem storeStatus_failures (probe : String → Bool) (st : CommandChecker)
    (sect c nm : String) :
    ((storeStatus probe st sect c nm).2).failures =
      if probe c = true then st.failures else setAdd st.failures c := by
  rw [storeStatus]
  by_cases h : probe c = true <;>
    simp [is_command_callable, h]

theorem storeStatus_fbs (probe : String → Bool) (st : CommandChecker)
    (sect c nm : String) :
    ((storeStatus probe st sect c nm).2).failures_by_section =
      if probe c = true then st.failures_by_section
      else appendFBS st.failures_by_section sect c := by
  rw [storeStatus]
  by_cases h : probe c = true <;>
    simp [is_command_callable, h]

theorem runPairs_lookup2 (probe : String → Bool) :
    ∀ (ps : List (String × String)) (st : CommandChecker) (s c : String),
    lookup2 (runPairs probe st ps).section_to_status_by_command s c =
      if (s, c) ∈ ps then some (probe c)
      else lookup2 st.section_to_status_by_command s c
  | [], st, s, c => by simp [runPairs]
  | (s0, c0) :: ps, st, s, c => by
      rw [show runPairs probe st ((s0, c0) :: ps) =
        runPairs probe ((storeStatus probe st s0 c0 "").2) ps from rfl]
      rw [runPairs_lookup2 probe ps _ s c, storeStatus_stsbc,
        setStatus2_lookup2]
      by_cases h1 : (s, c) ∈ ps
      · simp [h1]
      · by_cases h2 : s0 = s ∧ c0 = c
        · obtain ⟨ha, hb⟩ := h2
          subst ha
          subst hb
          simp [h1]
        · have hne : ¬ ((s, c) = (s0, c0)) := by
            intro hcon
            rw [Prod.mk.injEq] at hcon
            exact h2 ⟨hcon.1.symm, hcon.2.symm⟩
          simp [h1, hne, h2]

theorem runPairs_failures_mem (probe : String → Bool) :
    ∀ (ps : List (String × String)) (st : CommandChecker) (c : String),
    (c ∈ (runPairs probe st ps).failures ↔
      c ∈ st.failures ∨ ∃ s, (s, c) ∈ ps ∧ probe c = false)
  | [], st, c => by simp [runPairs]
  | (s0, c0) :: ps, st, c => by
      rw [show runPairs probe st ((s0, c0) :: ps) =
        runPairs probe ((storeStatus probe st s0 c0 "").2) ps from rfl]
      rw [runPairs_failures_mem probe ps _ c, storeStatus_failures]
      by_cases h : probe c0 = true
      · rw [if_pos h]
        constructor
        · rintro (hin | ⟨s2, hmem, hp⟩)
          · exact Or.inl hin
          · exact Or.inr ⟨s2, List.mem_cons_of_mem _ hmem, hp⟩
        · rintro (hin | ⟨s2, hmem, hp⟩)
          · exact Or.inl hin
          · rcases List.mem_cons.mp hmem with heq | hmem2
            · rw [Prod.mk.injEq] at heq
              rw [← heq.2] at h
              rw [h] at hp
              exact Bool.noConfusion hp
            · exact Or.inr ⟨s2, hmem2, hp⟩
      · rw [if_neg h]
        rw [Bool.not_eq_true] at h
        constructor
        · rintro (hin | ⟨s2, hmem, hp⟩)
          · rcases (mem_setAdd st.failures c0 c).mp hin with h1 | rfl
            · exact Or.inl h1
            · exact Or.inr ⟨s0, List.mem_cons_self _ _, h⟩
          · exact Or.inr ⟨s2, List.mem_cons_of_mem _ hmem, hp⟩
        · rintro (hin | ⟨s2, hmem, hp⟩)
          · exact Or.inl ((mem_setAdd st.failures c0 c).mpr (Or.inl hin))
          · rcases List.mem_cons.mp hmem with heq | hmem2
            · rw [Prod.mk.injEq] at heq
              exact Or.inl ((mem_setAdd st.failures c0 c).mpr
                (Or.inr heq.2))
            · exact Or.inr ⟨s2, hmem2, hp⟩

theorem runPairs_fbs_mem (probe : String → Bool) :
    ∀ (ps : List (String × String)) (st : CommandChecker) (s c : String),
    (c ∈ fbsGet (runPairs probe st ps).failures_by_section s ↔
      c ∈ fbsGet st.failures_by_section s ∨ ((s, c) ∈ ps ∧ probe c = false))
  | [], st, s, c => by simp [runPairs]
  | (s0, c0) :: ps, st, s, c => by
      rw [show runPairs probe st ((s0, c0) :: ps) =
        runPairs probe ((storeStatus probe st s0 c0 "").2) ps from rfl]
      rw [runPairs_fbs_mem probe ps _ s c, storeStatus_fbs]
      by_cases h : probe c0 = true
      · rw [if_pos h]
        constructor
        · rintro (hin | ⟨hmem, hp⟩)
          · exact Or.inl hin
          · exact Or.inr ⟨List.mem_cons_of_mem _ hmem, hp⟩
        · rintro (hin | ⟨hmem, hp⟩)
          · exact Or.inl hin
          · rcases List.mem_cons.mp hmem with heq | hmem2
            · rw [Prod.mk.injEq] at heq
              rw [← heq.2] at h
              rw [h] at hp
              exact Bool.noConfusion hp
            · exact Or.inr ⟨hmem2, hp⟩
      · rw [if_neg h]
        rw [Bool.not_eq_true] at h
        rw [fbsGet_append]
        by_cases hs : s0 = s
        · subst hs
          rw [if_pos rfl]
          constructor
          · rintro (hin | ⟨hmem, hp⟩)
            · rcases List.mem_append.mp hin with h1 | h1
              · exact Or.inl h1
              · rw [List.mem_singleton] at h1
                subst h1
                exact Or.inr ⟨List.mem_cons_self _ _, h⟩
            · exact Or.inr ⟨List.mem_cons_of_mem _ hmem, hp⟩
          · rintro (hin | ⟨hmem, hp⟩)
            · exact Or.inl (List.mem_append.mpr (Or.inl hin))
            · rcases List.mem_cons.mp hmem with heq | hmem2
              · rw [Prod.mk.injEq] at heq
                exact Or.inl (List.mem_append.mpr (Or.inr
                  (by rw [List.mem_singleton]; exact heq.2)))
              · exact Or.inr ⟨hmem2, hp⟩
        · rw [if_neg hs]
          constructor
          · rintro (hin | ⟨hmem, hp⟩)
            · exact Or.inl hin
            · exact Or.inr ⟨List.mem_cons_of_mem _ hmem, hp⟩
          · rintro (hin | ⟨hmem, hp⟩)
            · exact Or.inl hin
            · rcases List.mem_cons.mp hmem with heq | hmem2
              · rw [Prod.mk.injEq] at heq
                exact absurd heq.1.symm hs
              · exact Or.inr ⟨hmem2, hp⟩

theorem setStatus2_ne_nil (m : List (String × List (String × Bool)))
    (sect c : String) (b : Bool) : setStatus2 m sect c b ≠ [] := by
  cases m with
  | nil => simp [setStatus2]
  | cons p rest =>
      obtain ⟨s0, inner⟩ := p
      rw [setStatus2]
      by_cases h : s0 = sect <;> simp [h]

theorem runPairs_stsbc_nil (probe : String → Bool) :
    ∀ (ps : List (String × String)) (st : CommandChecker),
    ((runPairs probe st ps).section_to_status_by_command = [] ↔
      st.section_to_status_by_command = [] ∧ ps = [])
  | [], st => by simp [runPairs]
  | (s0, c0) :: ps, st => by
      rw [show runPairs probe st ((s0, c0) :: ps) =
        runPairs probe ((storeStatus probe st s0 c0 "").2) ps from rfl]
      rw [runPairs_stsbc_nil probe ps _, storeStatus_stsbc]
      simp [setStatus2_ne_nil]

theorem processSection_eq_runPairs (probe : String → Bool)
    (conf : List (String × SectionData)) (st : CommandChecker) (s : String) :
    processSection probe conf st s =
      runPairs probe st
        (match alookup conf s with
         | none => []
         | some sd => (sectionCommands sd).map (fun c => (s, c))) := by
  cases hs : alookup conf s with
  | none => simp only [processSection, hs, runPairs, List.foldl_nil]
  | some sd =>
      cases sd with
      | mapdata es =>
          simp only [processSection, hs, runPairs, sectionCommands,
            List.map_map, List.foldl_map]
          rfl
      | listdata items =>
          simp only [processSection, hs, runPairs, sectionCommands,
            List.map_map, List.foldl_map]
          congr 1
          funext st2 it
          cases it <;> rfl

theorem runPairs_append (probe : String → Bool) (st : CommandChecker)
    (a b : List (String × String)) :
    runPairs probe st (a ++ b) = runPairs probe (runPairs probe st a) b :=
  List.foldl_append _ _ a b

theorem init_eq_runPairs (probe : String → Bool)
    (conf : List (String × SectionData)) (stc : Option (List String))
    (sk : List String) :
    CommandChecker.init probe conf stc sk =
      runPairs probe ⟨[], [], []⟩
        (probedPairs conf (ccSections conf stc sk)) := by
  have hgen : ∀ (secs : List String) (st : CommandChecker),
      secs.foldl (fun st s => processSection probe conf st s) st =
        runPairs probe st (probedPairs conf secs) := by
    intro secs
    induction secs with
    | nil => intro st; rfl
    | cons s rest ih =>
        intro st
        rw [List.foldl_cons, ih, processSection_eq_runPairs]
        rw [show probedPairs conf (s :: rest) =
          (match alookup conf s with
           | none => []
           | some sd => (sectionCommands sd).map (fun c => (s, c))) ++
            probedPairs conf rest from by
          rw [probedPairs, List.flatMap_cons]
          rfl]
        rw [runPairs_append]
  exact hgen _ _

/-- C5: after `CommandChecker` construction, every command probed in a
validated section has its shell-probe result recorded in
`section_to_status_by_command[section][command]`, and the command belongs to
the `failures` set — and to `failures_by_section[section]` — exactly when
its probe failed. -/
theorem claim_C5_command_checker_records (probe : String → Bool)
    (conf : List (String × SectionData)) (stc : Option (List String))
    (sk : List String) (s c : String) (sd : SectionData)
    (hs : s ∈ ccSections conf stc sk)
    (hsd : alookup conf s = some sd)
    (hc : c ∈ sectionCommands sd) :
    lookup2 (CommandChecker.init probe conf stc
        sk).section_to_status_by_command s c = some (probe c) ∧
    (c ∈ (CommandChecker.init probe conf stc sk).failures ↔
      probe c = false) ∧
    (c ∈ fbsGet (CommandChecker.init probe conf stc sk).failures_by_section s
      ↔ probe c = false) := by
  have hmem : (s, c) ∈ probedPairs conf (ccSections conf stc sk) := by
    rw [probedPairs, List.mem_flatMap]
    refine ⟨s, hs, ?_⟩
    rw [hsd]
    exact List.mem_map.mpr ⟨c, hc, rfl⟩
  rw [init_eq_runPairs]
  refine ⟨?_, ?_, ?_⟩
  · rw [runPairs_lookup2 probe _ _ s c, if_pos hmem]
  · rw [runPairs_failures_mem]
    constructor
    · rintro (hin | ⟨s2, _, hp⟩)
      · exact absurd hin (List.not_mem_nil c)
      · exact hp
    · intro hp
      exact Or.inr ⟨s, hmem, hp⟩
  · rw [runPairs_fbs_mem]
    constructor
    · rintro (hin | ⟨_, hp⟩)
      · exact absurd hin (by simp [fbsGet, alookup])
      · exact hp
    · intro hp
      exact Or.inr ⟨hmem, hp⟩

/-- C5 witness: a config with one `tools` section mapping two names to the
commands `ls` and `rm`, probed by an oracle that only finds `ls`. -/
theorem claim_C5_witness :
    lookup2 (CommandChecker.init (fun c => c == "ls")
        [("tools", .mapdata [("list", "ls"), ("remove", "rm")])]
        none []).section_to_status_by_command "tools" "rm" = some false ∧
    "rm" ∈ (CommandChecker.init (fun c => c == "ls")
        [("tools", .mapdata [("list", "ls"), ("remove", "rm")])]
        none []).failures := by
  have h := claim_C5_command_checker_records (fun c => c == "ls")
    [("tools", .mapdata [("list", "ls"), ("remove", "rm")])] none []
    "tools" "rm" (.mapdata [("list", "ls"), ("remove", "rm")])
    (by decide) (by decide) (by decide)
  exact ⟨h.1, h.2.1.mpr rfl⟩

/-- C9: `CommandChecker.failed` raises `ValueError` exactly when no command
statuses were recorded during construction, and otherwise returns whether
the failure set is empty — that is, despite its name, `failed` is `True`
exactly when every validated command's probe succeeded. -/
theorem claim_C9_failed_semantics (probe : String → Bool)
    (conf : List (String × SectionData)) (stc : Option (List String))
    (sk : List String) (ck : CommandChecker) (pp : List (String × String))
    (hck : ck = CommandChecker.init probe conf stc sk)
    (hpp : pp = probedPairs conf (ccSections conf stc sk)) :
    (ck.failed = .error .valueError ↔ pp = []) ∧
    (pp ≠ [] → ck.failed = .ok (ck.failures.length == 0)) ∧
    ((ck.failures.length == 0) = true ↔ ∀ p ∈ pp, probe p.2 = true) := by
  subst hck
  subst hpp
  rw [init_eq_runPairs]
  have hempty : (runPairs probe ⟨[], [], []⟩
      (probedPairs conf (ccSections conf stc
        sk))).section_to_status_by_command = [] ↔
      probedPairs conf (ccSections conf stc sk) = [] := by
    rw [runPairs_stsbc_nil]
    simp
  refine ⟨?_, ?_, ?_⟩
  · rw [CommandChecker.failed]
    by_cases h : (runPairs probe ⟨[], [], []⟩
        (probedPairs conf (ccSections conf stc
          sk))).section_to_status_by_command = []
    · rw [if_pos h]
      simp [hempty.mp h]
    · rw [if_neg h]
      rw [hempty] at h
      simp [h]
  · intro hne
    rw [CommandChecker.failed, if_neg (by rw [hempty]; exact hne)]
  · rw [show ((runPairs probe ⟨[], [], []⟩
        (probedPairs conf (ccSections conf stc
          sk))).failures.length == 0) = true ↔
      (runPairs probe ⟨[], [], []⟩
        (probedPairs conf (ccSections conf stc sk))).failures = []
      from by simp [List.length_eq_zero]]
    rw [List.eq_nil_iff_forall_not_mem]
    constructor
    · intro hl p hp
      by_contra hpc
      rw [Bool.not_eq_true] at hpc
      exact hl p.2 ((runPairs_failures_mem probe _ _ p.2).mpr
        (Or.inr ⟨p.1, by rw [Prod.mk.eta]; exact hp, hpc⟩))
    · intro hall c hc
      rcases (runPairs_failures_mem probe _ _ c).mp hc with hin | ⟨s2, hmem, hp⟩
      · exact absurd hin (List.not_mem_nil c)
      · rw [hall (s2, c) hmem] at hp
        exact Bool.noConfusion hp

/-- C9 witness: `failed` on the one-section config, where one of the two
probed commands fails. -/
theorem claim_C9_witness :
    ((CommandChecker.init (fun c => c == "ls")
        [("tools", .mapdata [("list", "ls"), ("remove", "rm")])]
        none []).failed = .error .valueError ↔
      probedPairs [("tools", .mapdata [("list", "ls"), ("remove", "rm")])]
        (ccSections [("tools", .mapdata [("list", "ls"), ("remove", "rm")])]
          none []) = []) ∧
    (CommandChecker.init (fun c => c == "ls")
        [("tools", .mapdata [("list", "ls"), ("remove", "rm")])]
        none []).failed = .ok ((CommandChecker.init (fun c => c == "ls")
        [("tools", .mapdata [("list", "ls"), ("remove", "rm")])]
        none []).failures.length == 0) := by
  have h := claim_C9_failed_semantics (fun c => c == "ls")
    [("tools", .mapdata [("list", "ls"), ("remove", "rm")])] none [] _ _
    rfl rfl
  exact ⟨h.1, h.2.1 (by decide)⟩

end Peppy
